import Mathlib

/-!
# Verification of the `melt` flake-update engine

Shallow embedding of the core data model and operations of the `melt`
repository (a TUI for auditing Nix flake inputs), together with theorems
checking the natural-language specification against the code.

Each definition is translated from the Rust source file named in its doc
comment.  External libraries (git2, reqwest, tokio) are modelled as
oracles: abstract functions supplied as parameters or record fields.
-/

/-- Decidable equality for `Except`, used to evaluate witnesses. -/
instance {ε α : Type} [DecidableEq ε] [DecidableEq α] :
    DecidableEq (Except ε α) := fun a b =>
  match a, b with
  | .ok x, .ok y =>
    if h : x = y then .isTrue (by rw [h]) else .isFalse (by simp [h])
  | .error x, .error y =>
    if h : x = y then .isTrue (by rw [h]) else .isFalse (by simp [h])
  | .ok _, .error _ => .isFalse (by simp)
  | .error _, .ok _ => .isFalse (by simp)

namespace Melt

/-- `ForgeType` from `src/model/flake.rs`. -/
inductive ForgeType
  | GitHub
  | GitLab
  | SourceHut
  | Codeberg
  | Gitea
  | Generic
  deriving DecidableEq, Repr

/-- `Commit` from `src/model/commit.rs`.  The `chrono` date is modelled as a
Unix timestamp. -/
structure Commit where
  sha : String
  message : String
  author : String
  date : Int
  is_locked : Bool
  deriving DecidableEq, Repr

/-- `ChangelogData` from `src/model/commit.rs`. -/
structure ChangelogData where
  commits : List Commit
  locked_idx : Option Nat
  deriving DecidableEq, Repr

/-- `ChangelogData::commits_ahead` from `src/model/commit.rs`:
`self.locked_idx.unwrap_or(self.commits.len())`. -/
def ChangelogData.commits_ahead (d : ChangelogData) : Nat :=
  d.locked_idx.getD d.commits.length

/-- `ChangelogData::commits_behind` from `src/model/commit.rs`:
`Some(idx) => self.commits.len().saturating_sub(idx + 1)`, `None => 0`.
Lean's `Nat` subtraction is saturating, matching `saturating_sub`. -/
def ChangelogData.commits_behind (d : ChangelogData) : Nat :=
  match d.locked_idx with
  | some idx => d.commits.length - (idx + 1)
  | none => 0

/-- `UpdateStatus` from `src/model/status.rs`. -/
inductive UpdateStatus
  | Unknown
  | Checking
  | UpToDate
  | Behind (n : Nat)
  | Error (msg : String)
  deriving DecidableEq, Repr

/-- `GitInput` from `src/model/flake.rs`. -/
structure GitInput where
  name : String
  owner : String
  repo : String
  forge_type : ForgeType
  host : Option String
  reference : Option String
  rev : String
  last_modified : Int
  url : String
  deriving DecidableEq, Repr

/-- `FlakeInput` from `src/model/flake.rs`.  `PathInput` holds only a name;
`OtherInput` holds name, rev and last_modified. -/
inductive FlakeInput
  | Git (g : GitInput)
  | Path (name : String)
  | Other (name : String) (rev : String) (last_modified : Int)
  deriving DecidableEq, Repr

/-- `FlakeInput::name` from `src/model/flake.rs`. -/
def FlakeInput.name : FlakeInput → String
  | .Git g => g.name
  | .Path n => n
  | .Other n _ _ => n

/-- `GitError` from `src/error.rs`. -/
inductive GitError
  | CloneFailed (msg : String)
  | FetchFailed (msg : String)
  | NotFound
  | AuthFailed
  | RevisionNotFound (rev : String)
  | NetworkError (msg : String)
  | InvalidUrl (msg : String)
  | CacheError (msg : String)
  deriving DecidableEq, Repr

/-- The constructor ("kind") of a `GitError`, i.e. the enum variant without
its payload. -/
inductive GitErrorKind
  | CloneFailed
  | FetchFailed
  | NotFound
  | AuthFailed
  | RevisionNotFound
  | NetworkError
  | InvalidUrl
  | CacheError
  deriving DecidableEq, Repr

/-- Map a `GitError` to its variant. -/
def GitError.kind : GitError → GitErrorKind
  | .CloneFailed _ => .CloneFailed
  | .FetchFailed _ => .FetchFailed
  | .NotFound => .NotFound
  | .AuthFailed => .AuthFailed
  | .RevisionNotFound _ => .RevisionNotFound
  | .NetworkError _ => .NetworkError
  | .InvalidUrl _ => .InvalidUrl
  | .CacheError _ => .CacheError

/-- Oracle model of an open git2 `Repository` (the library behind the
fallback path in `src/service/git.rs`).  Oids are commit hashes as strings.

* `revparse` models `Repository::revparse_single(spec).id()`.
* `findRef` models `Repository::find_reference(name).target()` (a reference
  whose target is symbolic behaves like a missing reference here, since the
  source falls through to the next candidate in both cases).
* `headTarget` models `Repository::head().target()`.
* `walk oid hidden` models the oid sequence produced by a `revwalk` after
  `push(oid)` and, when `hidden = some b`, `hide(b)`.
* `findCommit` models `Repository::find_commit`, yielding the summary line,
  author name and commit time.
* `reach a b` is the library's reachability relation (`b` is an ancestor of
  or equal to `a`); it is used only to state what `walk` enumerates. -/
structure Repo where
  revparse : String → Option String
  findRef : String → Option String
  headTarget : Option String
  walk : String → Option String → List String
  findCommit : String → Option (String × String × Int)
  reach : String → String → Bool

/-- `commit_to_model` from `src/service/git.rs`: converts a git2 commit to
the `Commit` model with `is_locked: false`. -/
def commit_to_model (oid : String) (meta : String × String × Int) : Commit :=
  { sha := oid, message := meta.1, author := meta.2.1, date := meta.2.2,
    is_locked := false }

/-- `resolve_ref` from `src/service/git.rs`: try the mirrored remote branch,
a local branch, literal `HEAD`, then a raw revision parse. -/
def resolve_ref (repo : Repo) (refname : String) : Except GitError String :=
  match repo.findRef ("refs/remotes/origin/" ++ refname) with
  | some oid => .ok oid
  | none =>
  match repo.findRef ("refs/heads/" ++ refname) with
  | some oid => .ok oid
  | none =>
  match (if refname = "HEAD" then repo.headTarget else none) with
  | some oid => .ok oid
  | none =>
  match repo.revparse refname with
  | some oid => .ok oid
  | none => .error (GitError.RevisionNotFound refname)

/-- `get_commits_since` from `src/service/git.rs`: commits reachable from
`head_ref` but not from `base_rev`, capped at 500.  An unresolvable base
yields `Ok([])`; a commit the repository cannot load is skipped
(`if let Ok(commit) = repo.find_commit(oid)`). -/
def get_commits_since (repo : Repo) (base_rev : String)
    (head_ref : Option String) : Except GitError (List Commit) :=
  let headRef := head_ref.getD "HEAD"
  match resolve_ref repo headRef with
  | .error e => .error e
  | .ok head_oid =>
    match repo.revparse base_rev with
    | none => .ok []
    | some base_oid =>
      if head_oid = base_oid then .ok []
      else
        .ok (((repo.walk head_oid (some base_oid)).take 500).filterMap
          (fun oid => (repo.findCommit oid).map (commit_to_model oid)))

/-- `get_commits_from` from `src/service/git.rs`: commits reachable from
`rev` going back, capped at `limit`.  An unresolvable `rev` yields
`Ok([])`. -/
def get_commits_from (repo : Repo) (rev : String) (limit : Nat) :
    Except GitError (List Commit) :=
  match repo.revparse rev with
  | none => .ok []
  | some oid =>
    .ok (((repo.walk oid none).take limit).filterMap
      (fun o => (repo.findCommit o).map (commit_to_model o)))

/-- The changelog-assembly step inside `GitService::get_git_changelog`
(`src/service/git.rs`): mark the first tail commit locked when the tail is
non-empty. -/
def mark_first_locked : List Commit → List Commit
  | [] => []
  | c :: rest => { c with is_locked := true } :: rest

/-- The blocking closure of `GitService::get_git_changelog` from
`src/service/git.rs`, after `ensure_repo` has produced an open repository:
`ahead := get_commits_since(repo, rev, reference)`,
`tail := get_commits_from(repo, rev, 50)`, then assemble. -/
def get_git_changelog_core (repo : Repo) (rev : String)
    (reference : Option String) : Except GitError ChangelogData :=
  match get_commits_since repo rev reference with
  | .error e => .error e
  | .ok commits_ahead =>
    match get_commits_from repo rev 50 with
    | .error e => .error e
    | .ok commits_from_locked =>
      if commits_from_locked.isEmpty then
        .ok { commits := commits_ahead, locked_idx := none }
      else
        .ok { commits := commits_ahead ++ mark_first_locked commits_from_locked,
              locked_idx := some commits_ahead.length }

/-- The filter at the head of `GitService::check_updates`
(`src/service/git.rs`): keep the Git-typed inputs, in order. -/
def git_inputs (inputs : List FlakeInput) : List GitInput :=
  inputs.filterMap (fun i => match i with | .Git g => some g | _ => none)

/-- The `match self.check_input_updates(input).await` arm of
`GitService::check_updates`: ahead-count 0 becomes `UpToDate`, a positive
count becomes `Behind`, a failure becomes `Error` with the rendered
message.  The per-input check itself (provider API call with git2 fallback)
is the oracle `Except String Nat`, its error already rendered to the string
`e.to_string()` produces. -/
def status_of_check : Except String Nat → UpdateStatus
  | .ok 0 => .UpToDate
  | .ok (n + 1) => .Behind (n + 1)
  | .error e => .Error e

/-- The second loop of `GitService::check_updates`: before each input the
cancellation flag is sampled (`cancelled k` is its value when `k` inputs
have been processed); if set, the loop breaks, emitting nothing further.
Otherwise a semaphore permit is acquired (acquisition fails only when the
semaphore is closed, which `GitService` never does, so it is modelled as
always succeeding), the input is checked and its terminal status emitted. -/
def process_inputs (cancelled : Nat → Bool)
    (check : GitInput → Except String Nat) :
    Nat → List GitInput → List (String × UpdateStatus)
  | _, [] => []
  | k, g :: rest =>
    if cancelled k then []
    else (g.name, status_of_check (check g)) ::
      process_inputs cancelled check (k + 1) rest

/-- `GitService::check_updates` from `src/service/git.rs` as the trace of
`(name, status)` callback emissions: first `Checking` for every Git input,
then the processing loop. -/
def check_updates (inputs : List FlakeInput) (cancelled : Nat → Bool)
    (check : GitInput → Except String Nat) : List (String × UpdateStatus) :=
  (git_inputs inputs).map (fun g => (g.name, UpdateStatus.Checking)) ++
    process_inputs cancelled check 0 (git_inputs inputs)

/-- The blocking closure of `GitService::check_git_updates`
(`src/service/git.rs`): check the cancellation flag, then
`ensure_repo` (its outcome is the oracle `repo_result`), then count the
commits since `rev`. -/
def check_git_blocking (cancelled : Bool) (repo_result : Except GitError Repo)
    (rev : String) (reference : Option String) : Except GitError Nat :=
  if cancelled then .error (.CloneFailed "Cancelled")
  else
    match repo_result with
    | .error e => .error e
    | .ok repo => (get_commits_since repo rev reference).map List.length

/-- The blocking closure of `GitService::get_git_changelog`
(`src/service/git.rs`): cancellation check, `ensure_repo`, then the
changelog assembly of `get_git_changelog_core`. -/
def changelog_git_blocking (cancelled : Bool)
    (repo_result : Except GitError Repo) (rev : String)
    (reference : Option String) : Except GitError ChangelogData :=
  if cancelled then .error (.CloneFailed "Cancelled")
  else
    match repo_result with
    | .error e => .error e
    | .ok repo => get_git_changelog_core repo rev reference

/-- Outcome of a `tokio::time::timeout(_, tokio::task::spawn_blocking(_))`
pair: the task completed with a value, the task panicked (join error), or
the timeout expired. -/
inductive TaskOutcome (α : Type)
  | completed (v : α)
  | joinError (msg : String)
  | timedOut
  deriving DecidableEq, Repr

/-- The result match at the end of `GitService::check_git_updates`. -/
def check_git_updates_result :
    TaskOutcome (Except GitError Nat) → Except GitError Nat
  | .completed (.ok n) => .ok n
  | .completed (.error e) => .error e
  | .joinError m => .error (.CloneFailed ("Task failed: " ++ m))
  | .timedOut => .error (.NetworkError "Timeout checking updates")

/-- The result match at the end of `GitService::get_git_changelog`. -/
def get_git_changelog_result :
    TaskOutcome (Except GitError ChangelogData) → Except GitError ChangelogData
  | .completed (.ok d) => .ok d
  | .completed (.error e) => .error e
  | .joinError m => .error (.CloneFailed ("Task failed: " ++ m))
  | .timedOut => .error (.NetworkError "Timeout loading changelog")

/-- `AppError` from `src/error.rs`.  Payloads that are foreign types
(`PathBuf`, `io::Error`, terminal errors) are modelled as strings. -/
inductive AppError
  | FlakeNotFound (path : String)
  | NixNotInstalled
  | NixCommandFailed (msg : String)
  | MetadataParseError (msg : String)
  | Git (e : GitError)
  | Io (msg : String)
  | Terminal (msg : String)
  deriving DecidableEq, Repr

/-- The constructor ("kind") of an `AppError`. -/
inductive AppErrorKind
  | FlakeNotFound
  | NixNotInstalled
  | NixCommandFailed
  | MetadataParseError
  | Git
  | Io
  | Terminal
  deriving DecidableEq, Repr

/-- Map an `AppError` to its variant. -/
def AppError.kind : AppError → AppErrorKind
  | .FlakeNotFound _ => .FlakeNotFound
  | .NixNotInstalled => .NixNotInstalled
  | .NixCommandFailed _ => .NixCommandFailed
  | .MetadataParseError _ => .MetadataParseError
  | .Git _ => .Git
  | .Io _ => .Io
  | .Terminal _ => .Terminal

/-- How one external `nix` process invocation can end, as seen by the
`tokio::select!` in `NixService::run_nix_command`: the command produced an
output (with success flag, stdout and stderr), spawning failed with an IO
error, the per-command timeout expired, or the cancellation token fired
while waiting. -/
inductive CmdOutcome
  | output (success : Bool) (stdout stderr : String)
  | ioError (msg : String)
  | timedOut
  | cancelledDuring
  deriving DecidableEq, Repr

/-- `NixService::run_nix_command` from `src/service/nix.rs`:
an up-front cancellation check, then the select over timeout / completion /
cancellation, then the exit-status check. -/
def run_nix_command (cancelled_before : Bool) (outcome : CmdOutcome) :
    Except AppError String :=
  if cancelled_before then .error (.NixCommandFailed "Operation cancelled")
  else
    match outcome with
    | .timedOut => .error (.NixCommandFailed "Command timed out")
    | .cancelledDuring => .error (.NixCommandFailed "Operation cancelled")
    | .ioError m => .error (.Io m)
    | .output true out _ => .ok out
    | .output false _ err => .error (.NixCommandFailed err.trim)

/-- The error variant of a nix-command result, if it failed. -/
def app_error_kind : Except AppError String → Option AppErrorKind
  | .error e => some e.kind
  | .ok _ => none

/-- `reqwest::StatusCode::is_success`: 2xx. -/
def is_success (status : Nat) : Bool := 200 ≤ status && status < 300

/-- The response-classification phase shared by
`GitService::check_github_updates` and `GitService::get_github_changelog`
(`src/service/git.rs`): on HTTP 403/429 the `x-ratelimit-remaining` header
is read (`remaining_header = none` models an absent or unparseable header,
which `unwrap_or(0)` treats as 0); zero remaining returns the rate-limit
error directly.  Any other non-success status falls back to the git2 path,
whose result is the oracle `fallback_result`.  A success status parses the
body (oracle `body`, a JSON-parse result). -/
def check_github_updates_response (status : Nat)
    (remaining_header : Option Nat) (body : Except String Nat)
    (fallback_result : Except GitError Nat) : Except GitError Nat :=
  if (status == 403 || status == 429) && (remaining_header.getD 0 == 0) then
    .error (.NetworkError
      "GitHub API rate limit exceeded. Set GITHUB_TOKEN for higher limits.")
  else if !(is_success status) then fallback_result
  else
    match body with
    | .ok ahead_by => .ok ahead_by
    | .error e => .error (.NetworkError e)

/-- Same classification in `GitService::get_github_changelog`; the parsed
body is the assembled `ChangelogData`. -/
def get_github_changelog_response (status : Nat)
    (remaining_header : Option Nat) (body : Except String ChangelogData)
    (fallback_result : Except GitError ChangelogData) :
    Except GitError ChangelogData :=
  if (status == 403 || status == 429) && (remaining_header.getD 0 == 0) then
    .error (.NetworkError
      "GitHub API rate limit exceeded. Set GITHUB_TOKEN for higher limits.")
  else if !(is_success status) then fallback_result
  else
    match body with
    | .ok data => .ok data
    | .error e => .error (.NetworkError e)

/-- Rust `str::split` with a char predicate: splits at every matching
character, keeping empty pieces.  Accumulator-based helper. -/
def splitOnPredAux (p : Char → Bool) : List Char → List Char → List (List Char)
  | [], acc => [acc.reverse]
  | c :: rest, acc =>
    if p c then acc.reverse :: splitOnPredAux p rest []
    else splitOnPredAux p rest (c :: acc)

/-- Rust `str::split` with a char predicate. -/
def splitOnPred (p : Char → Bool) (s : List Char) : List (List Char) :=
  splitOnPredAux p s []

/-- Rust `str::trim_end_matches(".git")` on a reversed character list:
repeatedly drop a leading reversed `".git"`. -/
def stripRevGit : List Char → List Char
  | 't' :: 'i' :: 'g' :: '.' :: rest => stripRevGit rest
  | l => l

/-- Rust `str::trim_end_matches(".git")`. -/
def trimEndGit (s : List Char) : List Char := (stripRevGit s.reverse).reverse

/-- Rust `str::trim` (whitespace on both ends; the URLs at issue are
ASCII, where Lean's `Char.isWhitespace` agrees with Rust's
`char::is_whitespace`). -/
def trimWs (s : List Char) : List Char :=
  ((s.dropWhile Char.isWhitespace).reverse.dropWhile Char.isWhitespace).reverse

/-- Rust `str::strip_prefix`. -/
def stripPrefixChars (pre s : List Char) : Option (List Char) :=
  if pre.isPrefixOf s then some (s.drop pre.length) else none

/-- Rust `str::split_once(c)`. -/
def splitOnceChar (c : Char) : List Char → Option (List Char × List Char)
  | [] => none
  | x :: rest =>
    if x = c then some ([], rest)
    else (splitOnceChar c rest).map (fun pr => (x :: pr.1, pr.2))

/-- Rust `str::contains("://")`. -/
def containsSchemeSep : List Char → Bool
  | [] => false
  | ':' :: '/' :: '/' :: _ => true
  | _ :: rest => containsSchemeSep rest

/-- `path.split(|c| c == '?' || c == '#').next().unwrap_or(path)` from
`src/service/nix.rs`: the part before the first query or fragment
delimiter. -/
def truncateAtQueryOrFrag (s : List Char) : List Char :=
  s.takeWhile (fun c => !(c == '?' || c == '#'))

/-- Rust `Vec::join("/")` on character-list segments. -/
def joinSlash : List (List Char) → List Char
  | [] => []
  | [s] => s
  | s :: rest => s ++ '/' :: joinSlash rest

/-- The inner `parse_owner_repo_from_path` of `src/service/nix.rs`: split on
`/` and `\`, drop empty segments, require at least two, take the last
(minus trailing `.git`) as repo and the rest joined by `/` as owner. -/
def parse_owner_repo_from_path (path : List Char) : Option (String × String) :=
  let segments := (splitOnPred (fun c => c == '/' || c == '\\') path).filter
    (fun s => !s.isEmpty)
  if segments.length < 2 then none
  else
    match segments.getLast? with
    | none => none
    | some repoSeg =>
      let repo := trimEndGit repoSeg
      if repo.isEmpty then none
      else
        let owner := joinSlash segments.dropLast
        if owner.isEmpty then none
        else some (String.mk owner, String.mk repo)

/-- The dispatch of `parse_owner_repo_from_url` (`src/service/nix.rs`)
after trimming, the empty check and the `git+` strip: handle scheme URLs
(drop scheme, then the authority up to the first `/`) or SCP-style
`user@host:path`, truncating the remaining path at `?`/`#`. -/
def parse_owner_repo_core (u : List Char) : Option (String × String) :=
  if "https://".toList.isPrefixOf u || "http://".toList.isPrefixOf u ||
      "ssh://".toList.isPrefixOf u then
    match stripPrefixChars "https://".toList u <|>
          stripPrefixChars "http://".toList u <|>
          stripPrefixChars "ssh://".toList u with
    | none => none
    | some rest =>
      match splitOnceChar '/' rest with
      | none => none
      | some pr => parse_owner_repo_from_path (truncateAtQueryOrFrag pr.2)
  else if u.contains ':' && !(containsSchemeSep u) then
    match splitOnceChar ':' u with
    | none => none
    | some pr => parse_owner_repo_from_path (truncateAtQueryOrFrag pr.2)
  else none

/-- `parse_owner_repo_from_url` from `src/service/nix.rs`: trim, return
`none` on empty, strip a `git+` prefix, then dispatch. -/
def parse_owner_repo_from_url (url : String) : Option (String × String) :=
  let u0 := trimWs url.toList
  if u0.isEmpty then none
  else parse_owner_repo_core ((stripPrefixChars "git+".toList u0).getD u0)

/-- The error strings of `src/error.rs` (`thiserror` `#[error]` messages)
for `GitError`. -/
def GitError.render : GitError → String
  | .CloneFailed m => "Failed to clone repository: " ++ m
  | .FetchFailed m => "Failed to fetch updates: " ++ m
  | .NotFound => "Repository not found"
  | .AuthFailed =>
    "Authentication failed - ensure SSH agent is running with valid keys"
  | .RevisionNotFound r => "Revision '" ++ r ++ "' not found in repository"
  | .NetworkError m => "Network error: " ++ m
  | .InvalidUrl m => "Invalid repository URL: " ++ m
  | .CacheError m => "Cache directory error: " ++ m

/-- The error strings of `src/error.rs` for `AppError`. -/
def AppError.render : AppError → String
  | .FlakeNotFound p => "No flake.nix found in " ++ p
  | .NixNotInstalled => "Nix is not installed or not in PATH"
  | .NixCommandFailed m => "Nix command failed: " ++ m
  | .MetadataParseError m => "Failed to parse flake metadata: " ++ m
  | .Git e => "Git error: " ++ e.render
  | .Io m => "IO error: " ++ m
  | .Terminal m => "Terminal error: " ++ m

/-- Key modifiers, as far as `KeyEventExt::is_quit` (`src/event.rs`)
distinguishes them. -/
inductive KeyMods
  | plain
  | control
  | otherMods
  deriving DecidableEq, Repr

/-- The key codes `handle_list_key` (`src/app/handler.rs`) and `is_quit`
distinguish; everything else is `other`. -/
inductive KeyCode
  | charQ
  | esc
  | charJ
  | down
  | charK
  | up
  | space
  | charLowerU
  | charUpperU
  | charR
  | charC
  | other
  deriving DecidableEq, Repr

/-- A key event: code plus modifier. -/
structure KeyEvent where
  code : KeyCode
  mods : KeyMods
  deriving DecidableEq, Repr

/-- `KeyEventExt::is_quit` from `src/event.rs`: plain `q`, any `Esc`, or
Ctrl-C. -/
def KeyEvent.is_quit (k : KeyEvent) : Bool :=
  match k.code, k.mods with
  | .charQ, .plain => true
  | .esc, _ => true
  | .charC, .control => true
  | _, _ => false

/-- `ListState` from `src/app/state.rs`.  The flake is reduced to its input
list (the path plays no role here); the `HashSet<usize>` selection is a
duplicate-free list of indices whose order stands for the set's arbitrary
iteration order; the status `HashMap` is an association list;
`table_state`, pure rendering state mirroring the cursor, is omitted. -/
structure ListState where
  inputs : List FlakeInput
  cursor : Nat
  selected : List Nat
  update_statuses : List (String × UpdateStatus)
  busy : Bool
  deriving DecidableEq, Repr

/-- `ListState::new` from `src/app/state.rs`. -/
def ListState.new (inputs : List FlakeInput) : ListState :=
  { inputs := inputs, cursor := 0, selected := [], update_statuses := [],
    busy := false }

/-- `ListState::cursor_down`: `cursor < len.saturating_sub(1)`. -/
def ListState.cursor_down (l : ListState) : ListState :=
  if l.cursor < l.inputs.length - 1 then { l with cursor := l.cursor + 1 }
  else l

/-- `ListState::cursor_up`. -/
def ListState.cursor_up (l : ListState) : ListState :=
  if 0 < l.cursor then { l with cursor := l.cursor - 1 } else l

/-- `ListState::toggle_selection`. -/
def ListState.toggle_selection (l : ListState) : ListState :=
  if l.selected.contains l.cursor then
    { l with selected := l.selected.filter (fun i => !(i == l.cursor)) }
  else
    { l with selected := l.cursor :: l.selected }

/-- `ListState::clear_selection`. -/
def ListState.clear_selection (l : ListState) : ListState :=
  { l with selected := [] }

/-- `ListState::has_selection`. -/
def ListState.has_selection (l : ListState) : Bool := !l.selected.isEmpty

/-- `ListState::update_flake` from `src/app/state.rs`: replace the inputs,
clear `busy`, clamp the cursor to the new count, drop out-of-bounds
selections, clear the status map. -/
def ListState.update_flake (l : ListState) (inputs : List FlakeInput) :
    ListState :=
  let l1 : ListState := { l with inputs := inputs, busy := false }
  let l2 : ListState :=
    if l1.cursor ≥ inputs.length then { l1 with cursor := inputs.length - 1 }
    else l1
  { l2 with selected := l2.selected.filter (fun i => i < inputs.length),
            update_statuses := [] }

/-- `Action` from `src/app/handler.rs`. -/
inductive Action
  | none
  | quit
  | cancelAndQuit
  | updateSelected (names : List String)
  | updateAll
  | refresh
  | openChangelog (input_idx : Nat)
  | closeChangelog
  | confirmLock (input_name : String) (lock_url : String)
  | showWarning (msg : String)
  deriving DecidableEq, Repr

/-- Whether an action dispatches background work when executed
(`App::execute_action` spawns a task for exactly these). -/
def Action.isDispatch : Action → Bool
  | .updateSelected _ => true
  | .updateAll => true
  | .refresh => true
  | .openChangelog _ => true
  | _ => false

/-- `handle_list_key` from `src/app/handler.rs`. -/
def handle_list_key (l : ListState) (key : KeyEvent) : ListState × Action :=
  let is_busy := l.busy
  if l.inputs.length = 0 then
    if key.is_quit then (l, .quit) else (l, .none)
  else
    match key.code with
    | .charQ | .esc =>
      if l.has_selection then (l.clear_selection, .none) else (l, .quit)
    | .charJ | .down => (l.cursor_down, .none)
    | .charK | .up => (l.cursor_up, .none)
    | .space =>
      if !is_busy then (l.toggle_selection, .none) else (l, .none)
    | .charLowerU =>
      if is_busy then (l, .none)
      else
        let names := l.selected.filterMap
          (fun i => (l.inputs[i]?).map FlakeInput.name)
        if !names.isEmpty then
          ({ l with busy := true }, .updateSelected names)
        else (l, .showWarning "No inputs selected")
    | .charUpperU =>
      if is_busy then (l, .none)
      else ({ l with busy := true }, .updateAll)
    | .charR =>
      if is_busy then (l, .none)
      else ({ l with busy := true }, .refresh)
    | .charC =>
      if is_busy then (l, .none)
      else
        match l.inputs[l.cursor]? with
        | some (.Git _) => (l, .openChangelog l.cursor)
        | _ => (l, .showWarning "Changelog only available for git inputs")
    | .other => (l, .none)

/-- `ChangelogState` from `src/app/state.rs`, reduced to the fields the
state machine reads (`table_state` and the input index are rendering
concerns). -/
structure ChangelogState where
  input : GitInput
  data : ChangelogData
  cursor : Nat
  confirm_lock : Option Nat
  parent_list : ListState
  deriving DecidableEq, Repr

/-- `ChangelogState::new`: the cursor starts at the locked commit. -/
def ChangelogState.make (input : GitInput) (data : ChangelogData)
    (parent : ListState) : ChangelogState :=
  { input := input, data := data, cursor := data.locked_idx.getD 0,
    confirm_lock := none, parent_list := parent }

/-- `AppState` from `src/app/state.rs`. -/
inductive AppState
  | loading
  | error (msg : String)
  | list (l : ListState)
  | changelog (cs : ChangelogState)
  | loadingChangelog (l : ListState)
  | quitting
  deriving DecidableEq, Repr

/-- `TaskResult` from `src/app/state.rs`.  `FlakeData` is reduced to its
input list; the changelog payload to the trio the state machine consumes. -/
inductive TaskResult
  | flakeLoaded (r : Except AppError (List FlakeInput))
  | updateComplete (r : Except AppError Unit)
  | changelogLoaded (r : Except GitError (GitInput × ChangelogData × ListState))
  | lockComplete (r : Except AppError Unit)
  | inputStatus (name : String) (status : UpdateStatus)

/-- `HashMap::insert` on the association-list model of the status map. -/
def insert_status (m : List (String × UpdateStatus)) (name : String)
    (st : UpdateStatus) : List (String × UpdateStatus) :=
  if m.any (fun p => p.1 == name) then
    m.map (fun p => if p.1 == name then (name, st) else p)
  else m ++ [(name, st)]

/-- `App::handle_task_result` from `src/app/mod.rs`, as a state transition
(status messages and the tasks it spawns are side effects outside the
state).  Note the `std::mem::replace(_, Loading)` arms: a
`ChangelogLoaded(Err)` in a state other than `LoadingChangelog`, or a
`LockComplete(Ok)` in a state other than `Changelog`, leaves `Loading`
behind. -/
def handle_task_result (state : AppState) (r : TaskResult) : AppState :=
  match r with
  | .flakeLoaded (.ok inputs) =>
    match state with
    | .list l => .list (l.update_flake inputs)
    | _ => .list (ListState.new inputs)
  | .flakeLoaded (.error e) =>
    .error ("Failed to load flake: " ++ e.render)
  | .updateComplete (.ok _) =>
    match state with
    | .list l => .list l.clear_selection
    | s => s
  | .updateComplete (.error _) =>
    match state with
    | .list l => .list { l with busy := false }
    | s => s
  | .changelogLoaded (.ok d) =>
    .changelog (ChangelogState.make d.1 d.2.1 d.2.2)
  | .changelogLoaded (.error _) =>
    match state with
    | .loadingChangelog l => .list l
    | _ => .loading
  | .lockComplete (.ok _) =>
    match state with
    | .changelog cs => .list { cs.parent_list with busy := true }
    | _ => .loading
  | .lockComplete (.error _) =>
    match state with
    | .changelog cs => .changelog { cs with confirm_lock := none }
    | s => s
  | .inputStatus name st =>
    match state with
    | .list l =>
      .list { l with
        update_statuses := insert_status l.update_statuses name st }
    | s => s

end Melt

namespace Melt

/-- C3: For every `ChangelogData`, `commits_ahead()` is `locked_idx` when
present, else the commit count; `commits_behind()` is
`len - (locked_idx + 1)` saturating at 0 when `locked_idx` is present, else 0;
hence `locked_idx = none` gives `commits_behind() = 0`, and
`locked_idx = some i` with `i < len` gives
`commits_ahead() + commits_behind() + 1 = len`. -/
theorem changelog_counts_spec (d : ChangelogData) :
    d.commits_ahead = d.locked_idx.getD d.commits.length ∧
    d.commits_behind = (match d.locked_idx with
      | some idx => d.commits.length - (idx + 1)
      | none => 0) ∧
    (d.locked_idx = none → d.commits_behind = 0) ∧
    (∀ i, d.locked_idx = some i → i < d.commits.length →
      d.commits_ahead + d.commits_behind + 1 = d.commits.length) := by
  refine ⟨rfl, rfl, ?_, ?_⟩
  · intro h
    simp [ChangelogData.commits_behind, h]
  · intro i hi hlt
    simp [ChangelogData.commits_ahead, ChangelogData.commits_behind, hi]
    omega

/-- Witness for C3 at a concrete changelog value: two commits, locked index 1. -/
theorem changelog_counts_spec_witness :
    ({ commits := [⟨"a", "m", "au", 0, false⟩, ⟨"b", "m", "au", 0, true⟩],
       locked_idx := some 1 } : ChangelogData).commits_ahead +
    ({ commits := [⟨"a", "m", "au", 0, false⟩, ⟨"b", "m", "au", 0, true⟩],
       locked_idx := some 1 } : ChangelogData).commits_behind + 1 = 2 :=
  (changelog_counts_spec _).2.2.2 1 rfl (by decide)

/-- C2: in the fallback changelog assembly, with
`ahead = get_commits_since(repo, rev, reference)` and
`tail = get_commits_from(repo, rev, 50)`: when `tail` is non-empty the result
is `ahead ++ tail` with the first tail element marked locked and
`locked_idx = ahead.length`; when `tail` is empty, `locked_idx = none`;
and `tail` is capped at 50 commits. -/
theorem git_changelog_assembly (repo : Repo) (rev : String)
    (reference : Option String) (ahead tail : List Commit)
    (ha : get_commits_since repo rev reference = .ok ahead)
    (ht : get_commits_from repo rev 50 = .ok tail) :
    (tail ≠ [] →
      get_git_changelog_core repo rev reference =
        .ok { commits := ahead ++ mark_first_locked tail,
              locked_idx := some ahead.length } ∧
      ∀ c rest, tail = c :: rest →
        (ahead ++ mark_first_locked tail)[ahead.length]? =
          some { c with is_locked := true }) ∧
    (tail = [] →
      get_git_changelog_core repo rev reference =
        .ok { commits := ahead, locked_idx := none }) ∧
    tail.length ≤ 50 := by
  refine ⟨?_, ?_, ?_⟩
  · intro hne
    constructor
    · simp only [get_git_changelog_core, ha, ht, List.isEmpty_iff]
      simp [hne]
    · intro c rest hc
      subst hc
      rw [List.getElem?_append_right (Nat.le_refl _)]
      simp [mark_first_locked]
  · intro he
    subst he
    simp [get_git_changelog_core, ha, ht]
  · revert ht
    unfold get_commits_from
    cases hp : repo.revparse rev with
    | none => intro ht; cases ht; simp
    | some oid =>
      intro ht
      cases ht
      calc (((repo.walk oid none).take 50).filterMap
              (fun o => (repo.findCommit o).map (commit_to_model o))).length
          ≤ ((repo.walk oid none).take 50).length := List.length_filterMap_le _ _
        _ ≤ 50 := List.length_take_le _ _

/-- A small concrete repository used as evaluation witness: linear history
`A ← B ← C1 ← H`, where `"baseoid"` parses to `B` and the branch `main`
points at `H`. -/
def testRepo : Repo :=
  { revparse := fun s =>
      if s = "baseoid" then some "B" else if s = "H" then some "H" else none,
    findRef := fun s =>
      if s = "refs/remotes/origin/main" then some "H" else none,
    headTarget := some "H",
    walk := fun h b =>
      if h = "H" then (if b = some "B" then ["H", "C1"] else ["H", "C1", "B", "A"])
      else if h = "B" then ["B", "A"]
      else [],
    findCommit := fun o =>
      if o = "H" then some ("mh", "ah", (1 : Int))
      else if o = "C1" then some ("m1", "a1", 2)
      else if o = "B" then some ("mb", "ab", 3)
      else if o = "A" then some ("ma", "aa", 4)
      else none,
    reach := fun x y =>
      let rank : String → Option Nat := fun s =>
        if s = "A" then some 0 else if s = "B" then some 1
        else if s = "C1" then some 2 else if s = "H" then some 3 else none
      match rank x, rank y with
      | some rx, some ry => ry ≤ rx
      | _, _ => false }

/-- Witness for C2, applying `git_changelog_assembly` to `testRepo` at
revision `"baseoid"`: two ahead commits, two tail commits, the first tail
commit locked, `locked_idx = 2`. -/
theorem git_changelog_assembly_witness :
    get_git_changelog_core testRepo "baseoid" (some "main") =
      .ok { commits :=
              [⟨"H", "mh", "ah", 1, false⟩, ⟨"C1", "m1", "a1", 2, false⟩,
               ⟨"B", "mb", "ab", 3, true⟩, ⟨"A", "ma", "aa", 4, false⟩],
            locked_idx := some 2 } :=
  ((git_changelog_assembly testRepo "baseoid" (some "main")
      [⟨"H", "mh", "ah", 1, false⟩, ⟨"C1", "m1", "a1", 2, false⟩]
      [⟨"B", "mb", "ab", 3, false⟩, ⟨"A", "ma", "aa", 4, false⟩]
      (by decide) (by decide)).1 (by decide)).1

/-- A repository in which nothing resolves (e.g. a freshly created empty
bare repository): every lookup fails. -/
def emptyRepo : Repo :=
  { revparse := fun _ => none, findRef := fun _ => none, headTarget := none,
    walk := fun _ _ => [], findCommit := fun _ => none,
    reach := fun _ _ => false }

/-- C8 counterexample: the claim promises `Ok([])` for every repository
whose base revision does not parse, but `get_commits_since` resolves the
head reference first — in a repository where nothing resolves it returns
the head-resolution error, not an empty list. -/
theorem commits_since_unresolvable_head_counterexample :
    emptyRepo.revparse "nope" = none ∧
    get_commits_since emptyRepo "nope" none =
      .error (GitError.RevisionNotFound "HEAD") ∧
    get_commits_since emptyRepo "nope" none ≠ .ok [] := by
  refine ⟨rfl, rfl, ?_⟩
  decide

/-- C8 (amended): provided the head reference resolves, an unresolvable base
revision yields `Ok([])` rather than an error; when both ends resolve, the
returned list is capped at 500 commits, every returned commit has
`is_locked = false`, and — assuming the library walk enumerates only commits
reachable from head and not from base — so is every returned commit. -/
theorem commits_since_spec (repo : Repo) (base_rev : String)
    (head_ref : Option String) :
    (∀ head_oid, resolve_ref repo (head_ref.getD "HEAD") = .ok head_oid →
      repo.revparse base_rev = none →
      get_commits_since repo base_rev head_ref = .ok []) ∧
    (∀ head_oid base_oid commits,
      resolve_ref repo (head_ref.getD "HEAD") = .ok head_oid →
      repo.revparse base_rev = some base_oid →
      get_commits_since repo base_rev head_ref = .ok commits →
      commits.length ≤ 500 ∧
      (∀ c ∈ commits, c.is_locked = false) ∧
      ((∀ o ∈ repo.walk head_oid (some base_oid),
          repo.reach head_oid o = true ∧ repo.reach base_oid o = false) →
        ∀ c ∈ commits,
          repo.reach head_oid c.sha = true ∧
          repo.reach base_oid c.sha = false)) := by
  constructor
  · intro head_oid hres hbase
    simp [get_commits_since, hres, hbase]
  · intro head_oid base_oid commits hres hbase hrun
    rw [get_commits_since, hres, hbase] at hrun
    by_cases heq : head_oid = base_oid
    · simp only [heq, if_pos rfl] at hrun
      cases hrun
      refine ⟨by simp, by simp, by simp⟩
    · simp only [if_neg heq] at hrun
      cases hrun
      refine ⟨?_, ?_, ?_⟩
      · calc (((repo.walk head_oid (some base_oid)).take 500).filterMap
                (fun oid => (repo.findCommit oid).map (commit_to_model oid))).length
            ≤ ((repo.walk head_oid (some base_oid)).take 500).length :=
              List.length_filterMap_le _ _
          _ ≤ 500 := List.length_take_le _ _
      · intro c hc
        rcases List.mem_filterMap.mp hc with ⟨oid, _, hmap⟩
        rcases Option.map_eq_some'.mp hmap with ⟨meta, _, hcm⟩
        rw [← hcm]
        rfl
      · intro hwalk c hc
        rcases List.mem_filterMap.mp hc with ⟨oid, hoid, hmap⟩
        rcases Option.map_eq_some'.mp hmap with ⟨meta, _, hcm⟩
        have hsha : c.sha = oid := by rw [← hcm]; rfl
        rw [hsha]
        exact hwalk oid (List.mem_of_mem_take hoid)

/-- Witness for C8 on `testRepo`: with head at branch `main` (oid `H`) and
base `"baseoid"` (oid `B`), both the unresolvable-base clause (at base spec
`"nope"`) and the resolved-walk clause hold, the walk-soundness side
condition being discharged by evaluation. -/
theorem commits_since_spec_witness :
    get_commits_since testRepo "nope" (some "main") = .ok [] ∧
    testRepo.reach "H" "C1" = true ∧ testRepo.reach "B" "C1" = false :=
  ⟨(commits_since_spec testRepo "nope" (some "main")).1 "H" (by decide) (by decide),
   ((commits_since_spec testRepo "baseoid" (some "main")).2 "H" "B"
      [⟨"H", "mh", "ah", 1, false⟩, ⟨"C1", "m1", "a1", 2, false⟩]
      (by decide) (by decide) (by decide)).2.2 (by decide)
      ⟨"C1", "m1", "a1", 2, false⟩ (by decide)⟩

/-- With no cancellation, the processing loop emits one terminal status per
Git input, in order. -/
lemma process_inputs_no_cancel (check : GitInput → Except String Nat) :
    ∀ (gs : List GitInput) (k : Nat),
      process_inputs (fun _ => false) check k gs =
        gs.map (fun g => (g.name, status_of_check (check g))) := by
  intro gs
  induction gs with
  | nil => intro k; rfl
  | cons g rest ih => intro k; simp [process_inputs, ih]

/-- A terminal status is never `Checking`. -/
lemma status_of_check_ne_checking (check : GitInput → Except String Nat)
    (g : GitInput) : status_of_check (check g) ≠ UpdateStatus.Checking := by
  cases hc : check g with
  | ok n => cases n <;> simp [status_of_check]
  | error e => simp [status_of_check]

/-- Under distinct names, exactly one element of a Git-input list bears a
member's name. -/
lemma countP_name_eq_one :
    ∀ (gs : List GitInput), (gs.map GitInput.name).Nodup →
      ∀ g ∈ gs, gs.countP (fun g' => g'.name == g.name) = 1 := by
  intro gs
  induction gs with
  | nil => intro _ g hg; cases hg
  | cons a rest ih =>
    intro hnodup g hg
    rw [List.map_cons, List.nodup_cons] at hnodup
    rcases List.mem_cons.mp hg with rfl | hmem
    · rw [List.countP_cons]
      have hz : rest.countP (fun g' => g'.name == g.name) = 0 := by
        apply List.countP_eq_zero.mpr
        intro x hx
        simp only [beq_iff_eq]
        intro hxe
        exact hnodup.1 (hxe ▸ List.mem_map_of_mem GitInput.name hx)
      simp [hz]
    · rw [List.countP_cons]
      have hne : a.name ≠ g.name := by
        intro he
        exact hnodup.1 (he ▸ List.mem_map_of_mem GitInput.name hmem)
      simp [hne, ih hnodup.2 g hmem]

/-- Counting `(name, Checking)` entries in the checking phase reduces to
counting inputs with that name. -/
lemma checking_phase_countP (g : GitInput) :
    ∀ gs : List GitInput,
      ((gs.map (fun g' => (g'.name, UpdateStatus.Checking))).countP
        (fun p => p.1 == g.name && p.2 == UpdateStatus.Checking)) =
      gs.countP (fun g' => g'.name == g.name) := by
  intro gs
  induction gs with
  | nil => rfl
  | cons a rest ih => simp [List.countP_cons, ih]

/-- The checking phase holds no non-`Checking` entry. -/
lemma checking_phase_countP_terminal_zero (g : GitInput) :
    ∀ gs : List GitInput,
      ((gs.map (fun g' => (g'.name, UpdateStatus.Checking))).countP
        (fun p => p.1 == g.name && !(p.2 == UpdateStatus.Checking))) = 0 := by
  intro gs
  induction gs with
  | nil => rfl
  | cons a rest ih => simp [List.countP_cons, ih]

/-- The terminal phase holds no `Checking` entry. -/
lemma terminal_phase_countP_checking_zero
    (check : GitInput → Except String Nat) (g : GitInput) :
    ∀ gs : List GitInput,
      ((gs.map (fun g' => (g'.name, status_of_check (check g')))).countP
        (fun p => p.1 == g.name && p.2 == UpdateStatus.Checking)) = 0 := by
  intro gs
  induction gs with
  | nil => rfl
  | cons a rest ih =>
    simp [List.countP_cons, ih, status_of_check_ne_checking check a]

/-- Counting terminal entries for a name in the terminal phase reduces to
counting inputs with that name. -/
lemma terminal_phase_countP (check : GitInput → Except String Nat)
    (g : GitInput) :
    ∀ gs : List GitInput,
      ((gs.map (fun g' => (g'.name, status_of_check (check g')))).countP
        (fun p => p.1 == g.name && !(p.2 == UpdateStatus.Checking))) =
      gs.countP (fun g' => g'.name == g.name) := by
  intro gs
  induction gs with
  | nil => rfl
  | cons a rest ih =>
    simp [List.countP_cons, ih, status_of_check_ne_checking check a]

/-- C1: without cancellation, the callback trace of `check_updates` is the
`Checking` emissions for every Git input followed by exactly one terminal
status per Git input; the terminal status is `UpToDate` for ahead-count 0,
`Behind(n)` for `n > 0`, `Error(msg)` for a failure; a terminal status is
never `Checking`; every emitted name belongs to a Git input (nothing is
emitted for non-Git inputs); and under distinct input names each Git input
receives exactly one `Checking` and exactly one terminal emission. -/
theorem check_updates_emissions (inputs : List FlakeInput)
    (check : GitInput → Except String Nat) :
    check_updates inputs (fun _ => false) check =
      (git_inputs inputs).map (fun g => (g.name, UpdateStatus.Checking)) ++
      (git_inputs inputs).map (fun g => (g.name, status_of_check (check g))) ∧
    (∀ g : GitInput, status_of_check (check g) ≠ UpdateStatus.Checking) ∧
    (∀ g : GitInput, check g = .ok 0 →
      status_of_check (check g) = .UpToDate) ∧
    (∀ (g : GitInput) (n : Nat), check g = .ok (n + 1) →
      status_of_check (check g) = .Behind (n + 1)) ∧
    (∀ (g : GitInput) (e : String), check g = .error e →
      status_of_check (check g) = .Error e) ∧
    (∀ p ∈ check_updates inputs (fun _ => false) check,
      ∃ g, g ∈ git_inputs inputs ∧ p.1 = g.name) ∧
    (((git_inputs inputs).map GitInput.name).Nodup →
      ∀ g ∈ git_inputs inputs,
        ((check_updates inputs (fun _ => false) check).countP
          (fun p => p.1 == g.name && p.2 == UpdateStatus.Checking)) = 1 ∧
        ((check_updates inputs (fun _ => false) check).countP
          (fun p => p.1 == g.name && !(p.2 == UpdateStatus.Checking))) = 1) := by
  have heq : check_updates inputs (fun _ => false) check =
      (git_inputs inputs).map (fun g => (g.name, UpdateStatus.Checking)) ++
      (git_inputs inputs).map
        (fun g => (g.name, status_of_check (check g))) := by
    unfold check_updates
    rw [process_inputs_no_cancel]
  refine ⟨heq, status_of_check_ne_checking check, ?_, ?_, ?_, ?_, ?_⟩
  · intro g h; rw [h]; rfl
  · intro g n h; rw [h]; rfl
  · intro g e h; rw [h]; rfl
  · intro p hp
    rw [heq] at hp
    rcases List.mem_append.mp hp with h | h <;>
    · rcases List.mem_map.mp h with ⟨g, hg, hpg⟩
      exact ⟨g, hg, by rw [← hpg]⟩
  · intro hnodup g hg
    have hone := countP_name_eq_one (git_inputs inputs) hnodup g hg
    constructor
    · rw [heq, List.countP_append, checking_phase_countP,
        terminal_phase_countP_checking_zero, hone]
    · rw [heq, List.countP_append, checking_phase_countP_terminal_zero,
        terminal_phase_countP, hone]

/-- Witness for C1 on two concrete inputs (one Git input one commit behind,
one Path input): the Git input gets exactly one `Checking` emission. -/
theorem check_updates_emissions_witness :
    ((check_updates
        [FlakeInput.Git ⟨"a", "o", "r", .GitHub, none, none, "rv", 0, "u"⟩,
         FlakeInput.Path "p"]
        (fun _ => false) (fun _ => .ok 1)).countP
      (fun p => p.1 == "a" && p.2 == UpdateStatus.Checking)) = 1 :=
  ((check_updates_emissions
      [FlakeInput.Git ⟨"a", "o", "r", .GitHub, none, none, "rv", 0, "u"⟩,
       FlakeInput.Path "p"]
      (fun _ => .ok 1)).2.2.2.2.2.2 (by decide)
      ⟨"a", "o", "r", .GitHub, none, none, "rv", 0, "u"⟩ (by decide)).1

/-- Once the monotone cancellation flag is set at step `k`, the processing
loop emits at most `k` terminal statuses: counting from `start`, at most
`k - start` more. -/
lemma process_inputs_length_le (cancelled : Nat → Bool)
    (check : GitInput → Except String Nat)
    (hmono : ∀ i j, i ≤ j → cancelled i = true → cancelled j = true)
    (k : Nat) (hk : cancelled k = true) :
    ∀ (gs : List GitInput) (start : Nat), start ≤ k →
      (process_inputs cancelled check start gs).length ≤ k - start := by
  intro gs
  induction gs with
  | nil => intro start _; simp [process_inputs]
  | cons g rest ih =>
    intro start hs
    by_cases hc : cancelled start = true
    · simp [process_inputs, hc]
    · have hcf : cancelled start = false := by
        cases h : cancelled start
        · rfl
        · exact absurd h hc
      have hlt : start < k := by
        rcases Nat.lt_or_ge start k with h | h
        · exact h
        · exact absurd (hmono k start h hk) hc
      have hrest := ih (start + 1) (by omega)
      simp only [process_inputs, hcf, Bool.false_eq_true, if_false,
        List.length_cons]
      omega

/-- C7: once the shared cancellation flag is set (monotonically, at step
`k`), the update-check loop processes at most the first `k` Git inputs and
stops; and a fallback task observing the flag before its blocking VCS call
returns the cancellation error without consulting the repository — the
result is the same for every `ensure_repo` outcome. -/
theorem cancellation_blocks_new_vcs_work (inputs : List FlakeInput)
    (cancelled : Nat → Bool) (check : GitInput → Except String Nat) (k : Nat)
    (hmono : ∀ i j, i ≤ j → cancelled i = true → cancelled j = true)
    (hk : cancelled k = true) :
    (process_inputs cancelled check 0 (git_inputs inputs)).length ≤ k ∧
    (∀ (repo_result : Except GitError Repo) (rev : String)
        (reference : Option String),
      check_git_blocking true repo_result rev reference =
        .error (.CloneFailed "Cancelled") ∧
      changelog_git_blocking true repo_result rev reference =
        .error (.CloneFailed "Cancelled")) := by
  constructor
  · have := process_inputs_length_le cancelled check hmono k hk
      (git_inputs inputs) 0 (Nat.zero_le k)
    simpa using this
  · intro repo_result rev reference
    exact ⟨rfl, rfl⟩

/-- Witness for C7: flag set from step 1 on, three Git inputs — at most one
terminal status is emitted, and a cancelled blocking task returns the
cancellation error. -/
theorem cancellation_blocks_new_vcs_work_witness :
    (process_inputs (fun i => decide (1 ≤ i)) (fun _ => .ok 0) 0
      (git_inputs
        [FlakeInput.Git ⟨"a", "o", "r", .GitHub, none, none, "rv", 0, "u"⟩,
         FlakeInput.Git ⟨"b", "o", "r", .GitHub, none, none, "rv", 0, "u"⟩,
         FlakeInput.Git ⟨"c", "o", "r", .GitHub, none, none, "rv", 0, "u"⟩])).length
      ≤ 1 ∧
    check_git_blocking true (.error GitError.NotFound) "rv" none =
      .error (.CloneFailed "Cancelled") :=
  have h := cancellation_blocks_new_vcs_work
    [FlakeInput.Git ⟨"a", "o", "r", .GitHub, none, none, "rv", 0, "u"⟩,
     FlakeInput.Git ⟨"b", "o", "r", .GitHub, none, none, "rv", 0, "u"⟩,
     FlakeInput.Git ⟨"c", "o", "r", .GitHub, none, none, "rv", 0, "u"⟩]
    (fun i => decide (1 ≤ i)) (fun _ => .ok 0) 1
    (fun i j hij hi => by
      simp only [decide_eq_true_eq] at hi ⊢
      omega)
    (by decide)
  ⟨h.1, (h.2 (.error GitError.NotFound) "rv" none).1⟩

/-- C5 counterexample: the claim says the cancellation error's kind is
distinct from the timeout error's kind, but for nix commands a cancellation
observed before the run and a timeout both yield the variant
`NixCommandFailed` — the kinds coincide at this concrete input. -/
theorem nix_cancellation_kind_counterexample :
    app_error_kind (run_nix_command true (CmdOutcome.output true "" "")) =
      some AppErrorKind.NixCommandFailed ∧
    app_error_kind (run_nix_command false CmdOutcome.timedOut) =
      some AppErrorKind.NixCommandFailed ∧
    ¬ (app_error_kind (run_nix_command true (CmdOutcome.output true "" "")) ≠
       app_error_kind (run_nix_command false CmdOutcome.timedOut)) := by
  refine ⟨rfl, rfl, ?_⟩
  intro h
  exact h rfl

/-- C5 (amended): an operation started after the cancellation flag is set
fails fast with a cancellation-specific *message* — "Operation cancelled"
for nix commands (same `NixCommandFailed` variant as the timeout message
"Command timed out"), "Cancelled" for git fallback work, where the variant
(`CloneFailed`) does differ from the timeout variant (`NetworkError`) — and
the update-check loop emits no status at all (in particular no `Error`) for
work not yet started when cancellation is observed. -/
theorem cancellation_error_spec :
    (∀ outcome, run_nix_command true outcome =
      .error (.NixCommandFailed "Operation cancelled")) ∧
    run_nix_command false CmdOutcome.timedOut =
      .error (.NixCommandFailed "Command timed out") ∧
    ("Operation cancelled" : String) ≠ "Command timed out" ∧
    (∀ (repo_result : Except GitError Repo) (rev : String)
        (reference : Option String),
      check_git_blocking true repo_result rev reference =
        .error (.CloneFailed "Cancelled") ∧
      changelog_git_blocking true repo_result rev reference =
        .error (.CloneFailed "Cancelled")) ∧
    check_git_updates_result TaskOutcome.timedOut =
      .error (.NetworkError "Timeout checking updates") ∧
    (GitError.CloneFailed "Cancelled").kind ≠
      (GitError.NetworkError "Timeout checking updates").kind ∧
    (∀ (check : GitInput → Except String Nat) (inputs : List FlakeInput),
      process_inputs (fun _ => true) check 0 (git_inputs inputs) = []) := by
  refine ⟨fun outcome => rfl, rfl, by decide, fun r rv rf => ⟨rfl, rfl⟩, rfl,
    by decide, ?_⟩
  intro check inputs
  cases git_inputs inputs <;> simp [process_inputs]

/-- C4: a GitHub response with status 403 or 429 and a zero-or-absent
remaining-rate-limit header yields the directly-reported rate-limit error,
for both the update check and the changelog request, whatever the fallback
would return (it is never consulted); every other non-success status
returns exactly the fallback result. -/
theorem github_rate_limit_classification (status : Nat)
    (remaining : Option Nat) :
    ((status = 403 ∨ status = 429) → remaining.getD 0 = 0 →
      (∀ body fb, check_github_updates_response status remaining body fb =
        .error (.NetworkError
          "GitHub API rate limit exceeded. Set GITHUB_TOKEN for higher limits.")) ∧
      (∀ body fb, get_github_changelog_response status remaining body fb =
        .error (.NetworkError
          "GitHub API rate limit exceeded. Set GITHUB_TOKEN for higher limits."))) ∧
    (¬ ((status = 403 ∨ status = 429) ∧ remaining.getD 0 = 0) →
      is_success status = false →
      (∀ body fb, check_github_updates_response status remaining body fb = fb) ∧
      (∀ body fb, get_github_changelog_response status remaining body fb = fb)) := by
  constructor
  · intro hs hr
    have hcond :
        ((status == 403 || status == 429) && (remaining.getD 0 == 0)) = true := by
      rcases hs with rfl | rfl <;> simp [hr]
    constructor <;> intro body fb <;>
      simp [check_github_updates_response, get_github_changelog_response, hcond]
  · intro hno hfail
    have hcond :
        ((status == 403 || status == 429) && (remaining.getD 0 == 0)) = false := by
      by_cases h4 : status = 403
      · have hrn : remaining.getD 0 ≠ 0 := fun h => hno ⟨Or.inl h4, h⟩
        simp [h4, hrn]
      · by_cases h9 : status = 429
        · have hrn : remaining.getD 0 ≠ 0 := fun h => hno ⟨Or.inr h9, h⟩
          simp [h9, hrn]
        · simp [h4, h9]
    constructor <;> intro body fb <;>
      simp [check_github_updates_response, get_github_changelog_response,
        hcond, hfail]

/-- Witness for C4: status 403 with absent header gives the rate-limit
error even though the fallback would succeed; status 404 with a non-zero
header returns the fallback result. -/
theorem github_rate_limit_classification_witness :
    check_github_updates_response 403 none (.ok 5) (.ok 7) =
      .error (.NetworkError
        "GitHub API rate limit exceeded. Set GITHUB_TOKEN for higher limits.") ∧
    check_github_updates_response 404 (some 3) (.ok 5) (.ok 7) = .ok 7 :=
  ⟨((github_rate_limit_classification 403 none).1 (Or.inl rfl) rfl).1
      (.ok 5) (.ok 7),
   ((github_rate_limit_classification 404 (some 3)).2 (by decide)
      (by decide)).1 (.ok 5) (.ok 7)⟩

/-- A list strips as a prefix from its own append. -/
lemma isPrefixOf_append_self (pre rest : List Char) :
    pre.isPrefixOf (pre ++ rest) = true := by
  induction pre with
  | nil => simp
  | cons a as ih => simp [List.isPrefixOf_cons₂, ih]

/-- `strip_prefix` succeeds on an append and returns the remainder. -/
lemma stripPrefixChars_append_self (pre rest : List Char) :
    stripPrefixChars pre (pre ++ rest) = some rest := by
  simp [stripPrefixChars, isPrefixOf_append_self, List.drop_left]

/-- `split_once` splits at the first separator occurrence. -/
lemma splitOnceChar_append (c : Char) :
    ∀ (a b : List Char), c ∉ a → splitOnceChar c (a ++ c :: b) = some (a, b) := by
  intro a
  induction a with
  | nil => intro b _; simp [splitOnceChar]
  | cons x xs ih =>
    intro b hmem
    have hx : ¬ x = c := by
      intro he; subst he; exact hmem (List.mem_cons_self x xs)
    have hxs : c ∉ xs := fun hc => hmem (List.mem_cons_of_mem _ hc)
    simp [splitOnceChar, hx, ih b hxs]

/-- A list containing the separator reports it via `contains`. -/
lemma contains_append_cons_self (a : Char) (l r : List Char) :
    (l ++ a :: r).contains a = true := by
  induction l with
  | nil =>
    show List.elem a (a :: r) = true
    simp [List.elem]
  | cons x xs ih =>
    show List.elem a (x :: (xs ++ a :: r)) = true
    cases hax : a == x <;> simp [List.elem, hax]

/-- A string with no `://` cannot start with a scheme whose appends always
contain `://`. -/
lemma scheme_prefix_of_no_schemesep (pre : List Char)
    (hpre : ∀ rest, containsSchemeSep (pre ++ rest) = true)
    (u : List Char) (hss : containsSchemeSep u = false) :
    pre.isPrefixOf u = false := by
  cases hb : pre.isPrefixOf u with
  | false => rfl
  | true =>
    exfalso
    rcases List.isPrefixOf_iff_prefix.mp hb with ⟨rest, hrest⟩
    rw [← hrest, hpre rest] at hss
    cases hss

/-- A run without separators accumulates into a single piece. -/
lemma splitOnPredAux_no_match (p : Char → Bool) :
    ∀ (s acc : List Char), (∀ c ∈ s, p c = false) →
      splitOnPredAux p s acc = [acc.reverse ++ s] := by
  intro s
  induction s with
  | nil => intro acc _; simp [splitOnPredAux]
  | cons a s2 ih =>
    intro acc h
    have ha : p a = false := h a (List.mem_cons_self _ _)
    rw [splitOnPredAux, if_neg (by simp [ha]),
      ih (a :: acc) (fun c hc => h c (List.mem_cons_of_mem _ hc))]
    simp

/-- Splitting at the first separator after a separator-free run emits the
run as one piece. -/
lemma splitOnPredAux_sep (p : Char → Bool) (c0 : Char) (hc0 : p c0 = true) :
    ∀ (s t acc : List Char), (∀ c ∈ s, p c = false) →
      splitOnPredAux p (s ++ c0 :: t) acc =
        (acc.reverse ++ s) :: splitOnPredAux p t [] := by
  intro s
  induction s with
  | nil =>
    intro t acc _
    simp [splitOnPredAux, hc0]
  | cons a s2 ih =>
    intro t acc h
    have ha : p a = false := h a (List.mem_cons_self _ _)
    rw [List.cons_append, splitOnPredAux, if_neg (by simp [ha]),
      ih t (a :: acc) (fun c hc => h c (List.mem_cons_of_mem _ hc))]
    simp

/-- Splitting the `/`-join of nonempty, separator-free segments and
dropping empty pieces recovers the segments. -/
lemma splitOnPred_joinSlash (p : Char → Bool) (hsep : p '/' = true) :
    ∀ ss : List (List Char),
      (∀ s ∈ ss, s ≠ [] ∧ ∀ c ∈ s, p c = false) →
      (splitOnPred p (joinSlash ss)).filter (fun s => !s.isEmpty) = ss := by
  intro ss
  induction ss with
  | nil => intro _; rfl
  | cons s rest ih =>
    intro h
    have hs := h s (List.mem_cons_self _ _)
    cases rest with
    | nil =>
      show (splitOnPred p s).filter (fun s => !s.isEmpty) = [s]
      rw [splitOnPred, splitOnPredAux_no_match p s [] hs.2]
      simp [List.isEmpty_iff, hs.1]
    | cons s2 rest2 =>
      have hrest : ∀ x ∈ s2 :: rest2, x ≠ [] ∧ ∀ c ∈ x, p c = false :=
        fun x hx => h x (List.mem_cons_of_mem _ hx)
      show (splitOnPred p (s ++ '/' :: joinSlash (s2 :: rest2))).filter
        (fun s => !s.isEmpty) = s :: s2 :: rest2
      rw [splitOnPred, splitOnPredAux_sep p '/' hsep s _ [] hs.2]
      rw [List.filter_cons]
      simp only [List.reverse_nil, List.nil_append, List.isEmpty_iff, hs.1,
        Bool.not_false, if_true, decide_not]
      rw [show splitOnPredAux p (joinSlash (s2 :: rest2)) [] =
        splitOnPred p (joinSlash (s2 :: rest2)) from rfl, ih hrest]
      simp [List.isEmpty_iff, hs.1]

/-- The `/`-join of a nonempty list of nonempty segments is nonempty. -/
lemma joinSlash_ne_nil (ss : List (List Char)) (hne : ss ≠ [])
    (h : ∀ s ∈ ss, s ≠ []) : joinSlash ss ≠ [] := by
  match ss with
  | [] => exact absurd rfl hne
  | [s] => exact h s (List.mem_cons_self _ _)
  | s :: s2 :: rest =>
    show s ++ '/' :: joinSlash (s2 :: rest) ≠ []
    cases s <;> simp

/-- The whole-URL function strips a `git+` prefix and dispatches on the
remainder. -/
lemma parse_url_gitplus (url : String) (u : List Char)
    (hurl : url.toList = "git+".toList ++ u)
    (htrim : trimWs url.toList = url.toList) :
    parse_owner_repo_from_url url = parse_owner_repo_core u := by
  rw [parse_owner_repo_from_url, htrim, hurl,
    stripPrefixChars_append_self "git+".toList u]
  rfl

/-- Without a `git+` prefix the whole-URL function dispatches on the
trimmed URL itself. -/
lemma parse_url_not_gitplus (url : String) (hne : url.toList ≠ [])
    (htrim : trimWs url.toList = url.toList)
    (hng : stripPrefixChars "git+".toList url.toList = none) :
    parse_owner_repo_from_url url = parse_owner_repo_core url.toList := by
  rw [parse_owner_repo_from_url, htrim, hng]
  have hie : url.data.isEmpty = false := by
    cases hie2 : url.data.isEmpty
    · rfl
    · exact absurd (List.isEmpty_iff.mp hie2) hne
  simp [hie]

/-- An `https://` URL: the scheme and the authority (up to the first `/`)
are dropped and the path is parsed. -/
lemma core_scheme_https (auth p : List Char) (h : '/' ∉ auth) :
    parse_owner_repo_core ("https://".toList ++ (auth ++ '/' :: p)) =
      parse_owner_repo_from_path (truncateAtQueryOrFrag p) := by
  have hpre : ("https://".toList.isPrefixOf
      ("https://".toList ++ (auth ++ '/' :: p))) = true :=
    isPrefixOf_append_self _ _
  have hstrip : stripPrefixChars "https://".toList
      ("https://".toList ++ (auth ++ '/' :: p)) = some (auth ++ '/' :: p) :=
    stripPrefixChars_append_self _ _
  simp only [parse_owner_repo_core, hpre, Bool.true_or, reduceIte, hstrip,
    Option.some_orElse, splitOnceChar_append '/' auth p h]

/-- An `http://` URL behaves the same. -/
lemma core_scheme_http (auth p : List Char) (h : '/' ∉ auth) :
    parse_owner_repo_core ("http://".toList ++ (auth ++ '/' :: p)) =
      parse_owner_repo_from_path (truncateAtQueryOrFrag p) := by
  have hns : ("https://".toList.isPrefixOf
      ("http://".toList ++ (auth ++ '/' :: p))) = false := rfl
  have hstripn : stripPrefixChars "https://".toList
      ("http://".toList ++ (auth ++ '/' :: p)) = none := rfl
  have hpre : ("http://".toList.isPrefixOf
      ("http://".toList ++ (auth ++ '/' :: p))) = true :=
    isPrefixOf_append_self _ _
  have hstrip : stripPrefixChars "http://".toList
      ("http://".toList ++ (auth ++ '/' :: p)) = some (auth ++ '/' :: p) :=
    stripPrefixChars_append_self _ _
  simp only [parse_owner_repo_core, hns, hpre, Bool.false_or, Bool.true_or,
    reduceIte, hstripn, hstrip, Option.none_orElse, Option.some_orElse,
    splitOnceChar_append '/' auth p h]

/-- An `ssh://` URL behaves the same (any slash-free authority, including
`user@host:port`). -/
lemma core_scheme_ssh (auth p : List Char) (h : '/' ∉ auth) :
    parse_owner_repo_core ("ssh://".toList ++ (auth ++ '/' :: p)) =
      parse_owner_repo_from_path (truncateAtQueryOrFrag p) := by
  have hns1 : ("https://".toList.isPrefixOf
      ("ssh://".toList ++ (auth ++ '/' :: p))) = false := rfl
  have hns2 : ("http://".toList.isPrefixOf
      ("ssh://".toList ++ (auth ++ '/' :: p))) = false := rfl
  have hstripn1 : stripPrefixChars "https://".toList
      ("ssh://".toList ++ (auth ++ '/' :: p)) = none := rfl
  have hstripn2 : stripPrefixChars "http://".toList
      ("ssh://".toList ++ (auth ++ '/' :: p)) = none := rfl
  have hpre : ("ssh://".toList.isPrefixOf
      ("ssh://".toList ++ (auth ++ '/' :: p))) = true :=
    isPrefixOf_append_self _ _
  have hstrip : stripPrefixChars "ssh://".toList
      ("ssh://".toList ++ (auth ++ '/' :: p)) = some (auth ++ '/' :: p) :=
    stripPrefixChars_append_self _ _
  simp only [parse_owner_repo_core, hns1, hns2, hpre, Bool.false_or,
    Bool.true_or, reduceIte, hstripn1, hstripn2, hstrip, Option.none_orElse,
    Option.some_orElse, splitOnceChar_append '/' auth p h]

/-- An SCP-style `user@host:path` remote (no `://`): everything before the
first `:` is dropped and the path is parsed. -/
lemma core_scp (userhost p : List Char) (hc : ':' ∉ userhost)
    (hss : containsSchemeSep (userhost ++ ':' :: p) = false) :
    parse_owner_repo_core (userhost ++ ':' :: p) =
      parse_owner_repo_from_path (truncateAtQueryOrFrag p) := by
  have h1 : ("https://".toList.isPrefixOf (userhost ++ ':' :: p)) = false :=
    scheme_prefix_of_no_schemesep "https://".toList (fun rest => rfl) _ hss
  have h2 : ("http://".toList.isPrefixOf (userhost ++ ':' :: p)) = false :=
    scheme_prefix_of_no_schemesep "http://".toList (fun rest => rfl) _ hss
  have h3 : ("ssh://".toList.isPrefixOf (userhost ++ ':' :: p)) = false :=
    scheme_prefix_of_no_schemesep "ssh://".toList (fun rest => rfl) _ hss
  have h4 : (userhost ++ ':' :: p).contains ':' = true :=
    contains_append_cons_self ':' userhost p
  simp only [parse_owner_repo_core, h1, h2, h3, h4, hss, Bool.false_or,
    Bool.or_false, Bool.not_false, Bool.and_true, Bool.true_and, reduceIte,
    splitOnceChar_append ':' userhost p hc]
  rfl

/-- The path-level behavior: with at least two nonempty separator-free
segments, the last segment (minus trailing `.git`) becomes the repo and the
preceding segments re-joined by `/` become the owner. -/
lemma parse_path_segments (init : List (List Char)) (lastSeg : List Char)
    (h : ∀ s ∈ init ++ [lastSeg],
      s ≠ [] ∧ ∀ c ∈ s, (c == '/' || c == '\\') = false)
    (hinit : init ≠ []) :
    parse_owner_repo_from_path (joinSlash (init ++ [lastSeg])) =
      (if trimEndGit lastSeg = [] then none
       else some (String.mk (joinSlash init), String.mk (trimEndGit lastSeg))) := by
  have hsplit := splitOnPred_joinSlash (fun c => c == '/' || c == '\\') rfl
    (init ++ [lastSeg]) h
  have hlen : ¬ ((init ++ [lastSeg]).length < 2) := by
    rcases init with _ | ⟨s, it⟩
    · exact absurd rfl hinit
    · simp [List.length_append]
  have hjoin : joinSlash init ≠ [] :=
    joinSlash_ne_nil init hinit
      (fun s hs => (h s (List.mem_append_left _ hs)).1)
  simp only [parse_owner_repo_from_path, hsplit, hlen, reduceIte, if_false,
    List.getLast?_concat, List.dropLast_concat]
  by_cases hrepo : trimEndGit lastSeg = []
  · simp [hrepo]
  · simp [hrepo, List.isEmpty_iff, hjoin]

/-- Fewer than two path segments yield `none`. -/
lemma parse_path_short (q : List Char)
    (h : ((splitOnPred (fun c => c == '/' || c == '\\') q).filter
      (fun s => !s.isEmpty)).length < 2) :
    parse_owner_repo_from_path q = none := by
  simp only [parse_owner_repo_from_path, h, reduceIte, if_true]

/-- C6: owner/repo parsing strips a `git+` prefix, strips the scheme and
authority of an `https://`/`http://`/`ssh://` URL or the `user@host:` part
of an SCP-style remote, strips a trailing `.git`, and yields the last path
segment as repo with all preceding segments joined by `/` as owner; fewer
than two path segments yield `none`.  Stated generally over the stripping
steps, and instantiated on the claim's concrete URLs plus a `git+` and an
`ssh://` example. -/
theorem parse_owner_repo_spec :
    (∀ (url : String) (u : List Char), url.toList = "git+".toList ++ u →
      trimWs url.toList = url.toList →
      parse_owner_repo_from_url url = parse_owner_repo_core u) ∧
    (∀ url : String, url.toList ≠ [] → trimWs url.toList = url.toList →
      stripPrefixChars "git+".toList url.toList = none →
      parse_owner_repo_from_url url = parse_owner_repo_core url.toList) ∧
    (∀ auth p : List Char, '/' ∉ auth →
      parse_owner_repo_core ("https://".toList ++ (auth ++ '/' :: p)) =
        parse_owner_repo_from_path (truncateAtQueryOrFrag p) ∧
      parse_owner_repo_core ("http://".toList ++ (auth ++ '/' :: p)) =
        parse_owner_repo_from_path (truncateAtQueryOrFrag p) ∧
      parse_owner_repo_core ("ssh://".toList ++ (auth ++ '/' :: p)) =
        parse_owner_repo_from_path (truncateAtQueryOrFrag p)) ∧
    (∀ userhost p : List Char, ':' ∉ userhost →
      containsSchemeSep (userhost ++ ':' :: p) = false →
      parse_owner_repo_core (userhost ++ ':' :: p) =
        parse_owner_repo_from_path (truncateAtQueryOrFrag p)) ∧
    (∀ (init : List (List Char)) (lastSeg : List Char),
      (∀ s ∈ init ++ [lastSeg],
        s ≠ [] ∧ ∀ c ∈ s, (c == '/' || c == '\\') = false) →
      init ≠ [] →
      parse_owner_repo_from_path (joinSlash (init ++ [lastSeg])) =
        (if trimEndGit lastSeg = [] then none
         else some (String.mk (joinSlash init),
           String.mk (trimEndGit lastSeg)))) ∧
    (∀ q : List Char, ((splitOnPred (fun c => c == '/' || c == '\\') q).filter
        (fun s => !s.isEmpty)).length < 2 →
      parse_owner_repo_from_path q = none) ∧
    (parse_owner_repo_from_url "https://codeberg.org/LGFae/awww" =
       some ("LGFae", "awww") ∧
     parse_owner_repo_from_url "git@github.com:owner/repo.git" =
       some ("owner", "repo") ∧
     parse_owner_repo_from_url "https://gitlab.com/group/subgroup/repo.git" =
       some ("group/subgroup", "repo") ∧
     parse_owner_repo_from_url "git+https://github.com/NixOS/nixpkgs.git" =
       some ("NixOS", "nixpkgs") ∧
     parse_owner_repo_from_url "ssh://git@example.com:2222/owner/repo.git" =
       some ("owner", "repo") ∧
     parse_owner_repo_from_url "https://github.com/" = none) :=
  ⟨parse_url_gitplus, parse_url_not_gitplus,
   fun auth p h => ⟨core_scheme_https auth p h, core_scheme_http auth p h,
     core_scheme_ssh auth p h⟩,
   core_scp, parse_path_segments, parse_path_short,
   rfl, rfl, rfl, rfl, rfl, rfl⟩

/-- Witness for C6 at concrete inputs: the nested-subgroup path resolves to
`(group/subgroup, repo)` via the general segment lemma, and the ssh
authority with a port is dropped via the scheme lemma. -/
theorem parse_owner_repo_spec_witness :
    parse_owner_repo_from_path
        (joinSlash (["group".toList, "subgroup".toList] ++ ["repo.git".toList])) =
      some ("group/subgroup", "repo") ∧
    parse_owner_repo_core ("ssh://".toList ++
        ("git@example.com:2222".toList ++ '/' :: "owner/repo.git".toList)) =
      parse_owner_repo_from_path (truncateAtQueryOrFrag "owner/repo.git".toList) :=
  ⟨(parse_owner_repo_spec.2.2.2.2.1 ["group".toList, "subgroup".toList]
      "repo.git".toList (by decide) (by decide)).trans (by decide),
   (parse_owner_repo_spec.2.2.1 "git@example.com:2222".toList
      "owner/repo.git".toList (by decide)).2.2⟩

/-- C9: while `busy`, no keystroke yields a dispatching action; every
keystroke preserves `busy`; the long-operation keys (select toggle, update
selected, update all, refresh, open changelog) leave the state — in
particular the selection — unchanged; whenever an update/refresh dispatch
action is produced the returned state already has `busy = true`; and a task
result applied to a `List` state clears `busy` only when it is
`FlakeLoaded(Ok)` or `UpdateComplete(Err)` (or `busy` was already
clear). -/
theorem busy_gating (l : ListState) (key : KeyEvent) :
    (l.busy = true → (handle_list_key l key).2.isDispatch = false) ∧
    (l.busy = true → (handle_list_key l key).1.busy = true) ∧
    (l.busy = true →
      (key.code = .space ∨ key.code = .charLowerU ∨ key.code = .charUpperU ∨
        key.code = .charR ∨ key.code = .charC) →
      (handle_list_key l key).1 = l ∧
      (handle_list_key l key).1.selected = l.selected) ∧
    (∀ l2 a, handle_list_key l key = (l2, a) →
      ((∃ names, a = Action.updateSelected names) ∨ a = Action.updateAll ∨
        a = Action.refresh) →
      l2.busy = true) ∧
    (∀ r l2, handle_task_result (AppState.list l) r = AppState.list l2 →
      l2.busy = false →
      l.busy = false ∨ (∃ inputs, r = TaskResult.flakeLoaded (.ok inputs)) ∨
      (∃ e, r = TaskResult.updateComplete (.error e))) := by
  obtain ⟨code, mods⟩ := key
  refine ⟨?_, ?_, ?_, ?_, ?_⟩
  · intro hb
    by_cases h0 : l.inputs.length = 0 <;>
      by_cases hs : l.has_selection = true <;>
      cases code <;> cases mods <;>
      simp_all [handle_list_key, KeyEvent.is_quit, Action.isDispatch]
  · intro hb
    by_cases h0 : l.inputs.length = 0 <;> cases code <;> cases mods <;>
      simp_all [handle_list_key, KeyEvent.is_quit, ListState.cursor_down,
        ListState.cursor_up, ListState.clear_selection] <;>
      split <;> simp_all [ListState.clear_selection, ListState.cursor_down,
        ListState.cursor_up]
  · intro hb hcode
    by_cases h0 : l.inputs.length = 0 <;>
      rcases hcode with rfl | rfl | rfl | rfl | rfl <;> cases mods <;>
      simp_all [handle_list_key, KeyEvent.is_quit]
  · intro l2 a heq hdisp
    by_cases h0 : l.inputs.length = 0 <;> cases code <;> cases mods <;>
      simp only [handle_list_key, KeyEvent.is_quit, h0, if_true, if_false,
        reduceIte] at heq <;>
      (repeat' split at heq) <;>
      (cases heq) <;>
      (rcases hdisp with ⟨names, h⟩ | h | h) <;> (try cases h) <;> simp_all
  · intro r l2 heq hfb
    cases r with
    | flakeLoaded res =>
      cases res with
      | ok inputs => exact Or.inr (Or.inl ⟨inputs, rfl⟩)
      | error e => simp [handle_task_result] at heq
    | updateComplete res =>
      cases res with
      | ok u =>
        simp only [handle_task_result, AppState.list.injEq] at heq
        rw [← heq] at hfb
        exact Or.inl hfb
      | error e => exact Or.inr (Or.inr ⟨e, rfl⟩)
    | changelogLoaded res =>
      cases res <;> simp [handle_task_result] at heq
    | lockComplete res =>
      cases res with
      | ok u => simp [handle_task_result] at heq
      | error e =>
        simp only [handle_task_result, AppState.list.injEq] at heq
        rw [← heq] at hfb
        exact Or.inl hfb
    | inputStatus name st =>
      simp only [handle_task_result, AppState.list.injEq] at heq
      rw [← heq] at hfb
      exact Or.inl hfb

/-- Witness for C9: a busy list state receives the select-toggle key and is
returned unchanged. -/
theorem busy_gating_witness :
    (handle_list_key
      { inputs := [FlakeInput.Path "p"], cursor := 0, selected := [0],
        update_statuses := [], busy := true }
      { code := KeyCode.space, mods := KeyMods.plain }).1 =
    { inputs := [FlakeInput.Path "p"], cursor := 0, selected := [0],
      update_statuses := [], busy := true } :=
  ((busy_gating
      { inputs := [FlakeInput.Path "p"], cursor := 0, selected := [0],
        update_statuses := [], busy := true }
      { code := KeyCode.space, mods := KeyMods.plain }).2.2.1 rfl
      (Or.inl rfl)).1

/-- C10: after `ListState::update_flake` with any replacement snapshot,
`busy` is cleared, the status map is empty, the inputs are replaced, the
cursor is 0 on an empty list and strictly below the new count otherwise,
and every retained selected index is strictly below the new count. -/
theorem update_flake_invariants (l : ListState) (inputs : List FlakeInput) :
    (l.update_flake inputs).busy = false ∧
    (l.update_flake inputs).update_statuses = [] ∧
    (l.update_flake inputs).inputs = inputs ∧
    (inputs.length = 0 → (l.update_flake inputs).cursor = 0) ∧
    (0 < inputs.length → (l.update_flake inputs).cursor < inputs.length) ∧
    (∀ i ∈ (l.update_flake inputs).selected, i < inputs.length) := by
  by_cases h : l.cursor ≥ inputs.length <;>
    simp only [ListState.update_flake, h, reduceIte, if_true, if_false] <;>
    refine ⟨?_, ?_, ?_, ?_, ?_, ?_⟩ <;>
    first
    | trivial
    | (intro hlen; omega)
    | (intro i hi
       simp only [List.mem_filter, decide_eq_true_eq] at hi
       exact hi.2)

/-- Witness for C10: a busy state with cursor 2 and selection `{0, 2}`
refreshed down to a single input keeps the cursor in bounds. -/
theorem update_flake_invariants_witness :
    (({ inputs := [FlakeInput.Path "a", FlakeInput.Path "b",
          FlakeInput.Path "c"],
        cursor := 2, selected := [0, 2],
        update_statuses := [("a", UpdateStatus.Checking)],
        busy := true } : ListState).update_flake
      [FlakeInput.Path "x"]).cursor < 1 :=
  (update_flake_invariants _ _).2.2.2.2.1 (by decide)

end Melt
